import Mathlib

/-!
Verification of the tile-definition generator (`types_generator.go`).

The Go program reads a line-oriented definition file, parses each line into a
`TileDef`, accumulates a set of property names, assembles per-record bitmask
expression strings, and renders a README and a Go source artifact through
text templates.  Strings are modelled as lists of characters (`Str`); the
input domain is ASCII text, matching the definition files the tool consumes.
-/

/-- Go strings modelled as lists of characters. -/
abbrev Str := List Char

/-- Coerce a Lean string literal into the model type. -/
def str (s : String) : Str := s.data

/-- ASCII whitespace recognised by `strings.TrimSpace`
(space, tab, newline, vertical tab, form feed, carriage return). -/
def isSpaceChar (c : Char) : Bool :=
  c = ' ' || c = '\t' || c = '\n' || c = (Char.ofNat 11) || c = (Char.ofNat 12) || c = '\r'

/-- `strings.TrimSpace`: remove leading and trailing whitespace. -/
def trimSpace (s : Str) : Str :=
  ((s.dropWhile isSpaceChar).reverse.dropWhile isSpaceChar).reverse

/-- Split a list on every occurrence of a separator element
(`strings.Split(line, " ")` semantics: empty fields are kept). -/
def splitOnSep (sep : Char) : Str → List Str
  | [] => [[]]
  | c :: rest =>
    let r := splitOnSep sep rest
    if c = sep then
      [] :: r
    else
      match r with
      | [] => [[c]]
      | f :: fs => (c :: f) :: fs

/-- `bufio.ScanLines` drops one trailing carriage return from each line. -/
def dropCR (s : Str) : Str :=
  match s.getLast? with
  | some c => if c = '\r' then s.dropLast else s
  | none => s

/-- Worker for `scanLines`: walk the text, emitting a line at each newline;
at end of input a final non-empty remainder is a last line, an empty one is
not (matching `bufio.Scanner` with `ScanLines`). -/
def scanLinesAux : Str → Str → List Str
  | [], acc => if acc = [] then [] else [dropCR acc.reverse]
  | c :: rest, acc =>
    if c = '\n' then dropCR acc.reverse :: scanLinesAux rest []
    else scanLinesAux rest (c :: acc)

/-- The line sequence produced by `bufio.NewScanner(strings.NewReader(s))`. -/
def scanLines (s : Str) : List Str := scanLinesAux s []

/-- `strings.ToUpper` restricted to a single ASCII character. -/
def toUpperChar (c : Char) : Char :=
  if 'a' ≤ c ∧ c ≤ 'z' then Char.ofNat (c.toNat - 32) else c

/-- `capitilizeFirstLetter` from the source: empty maps to empty, otherwise
uppercase `s[0:1]` and concatenate the untouched remainder `s[1:]`. -/
def capitilizeFirstLetter (s : Str) : Str :=
  if s = [] then []
  else (s.take 1).map toUpperChar ++ s.drop 1

/-- `TileDef` from the source: symbol, capitalized name, capitalized
property tokens in input order. -/
structure TileDef where
  Symbol : Str
  Name : Str
  Properties : List Str
deriving DecidableEq, Repr

/-- `TileGen` from the source.  The Go `PropertyNameSet` is a
`map[string]bool`; its key set is modelled as a duplicate-free list holding
the keys in first-insertion order. -/
structure TileGen where
  Timestamp : Str
  Definitions : List TileDef
  PropertyNameSet : List Str
  DefaultProperties : Str
deriving DecidableEq, Repr

/-- Adding a key to the `PropertyNameSet` map: a no-op when present. -/
def insertName (set : List Str) (p : Str) : List Str :=
  if p ∈ set then set else set ++ [p]

/-- One iteration of the scanner loop in `parseTileDefs`: trim the line,
skip it when blank or when splitting on single spaces yields fewer than two
fields, otherwise append a `TileDef` and record its properties in the set. -/
def parseLineStep (tg : TileGen) (rawLine : Str) : TileGen :=
  let line := trimSpace rawLine
  if line = [] then tg
  else
    let arr := splitOnSep ' ' line
    if arr.length < 2 then tg
    else
      let symbol := arr.headD []
      let name := capitilizeFirstLetter (arr.getD 1 [])
      let proplist := (arr.drop 2).map capitilizeFirstLetter
      { tg with
        PropertyNameSet := proplist.foldl insertName tg.PropertyNameSet,
        Definitions := tg.Definitions ++
          [{ Symbol := symbol, Name := name, Properties := proplist }] }

/-- `parseTileDefs` from the source: fold the scanner loop over the lines. -/
def parseTileDefs (s : Str) (tg : TileGen) : TileGen :=
  (scanLines s).foldl parseLineStep tg

/-- The process-wide `tilegen` value before `main` runs: empty definitions
list, freshly made empty property set. -/
def initTileGen : TileGen :=
  { Timestamp := [], Definitions := [], PropertyNameSet := [], DefaultProperties := [] }

/-- A line survives the two `continue` checks of the parser loop exactly
when it is non-blank after trimming and splits into at least two fields. -/
def qualifies (line : Str) : Bool :=
  trimSpace line ≠ [] && ¬ (splitOnSep ' ' (trimSpace line)).length < 2

/-- The record the parser builds from one qualifying line. -/
def recordOfLine (line : Str) : TileDef :=
  let arr := splitOnSep ' ' (trimSpace line)
  { Symbol := arr.headD []
    Name := capitilizeFirstLetter (arr.getD 1 [])
    Properties := (arr.drop 2).map capitilizeFirstLetter }

/-- The ` | ` combinator token of the bitmask assembler. -/
def orSep : Str := str " | "

/-- The per-record bitmask expression built by the `switch` in
`stringifyPropertyList`: the literal `0` for no properties, the lone name
for one, otherwise every element of `list[:len(list)-1]` followed by
` | ` and then the last element. -/
def propExpr (list : List Str) : Str :=
  match list with
  | [] => str "0"
  | [p] => p
  | _ :: _ :: _ =>
    let arr := list.dropLast
    let last := list.getLastD []
    (arr.foldl (fun s v => s ++ v ++ orSep) []) ++ last

/-- `stringifyPropertyList` from the source: build the `DefaultProperties`
Go-code string, one `\t<Name>: <expr>,\n` entry per definition. -/
def stringifyPropertyList (tg : TileGen) : TileGen :=
  { tg with DefaultProperties :=
      (tg.Definitions.foldl
        (fun s tile =>
          s ++ str "\t" ++ tile.Name ++ str ": " ++ propExpr tile.Properties ++ str ",\n")
        []) }

/-! ### Parser loop lemmas -/

lemma parseLineStep_of_not_qualifies (tg : TileGen) (l : Str)
    (h : qualifies l = false) : parseLineStep tg l = tg := by
  unfold parseLineStep
  by_cases h0 : trimSpace l = []
  · simp [h0]
  · by_cases h1 : (splitOnSep ' ' (trimSpace l)).length < 2
    · simp [h0, h1]
    · exfalso
      simp [qualifies, h0, h1] at h

lemma parseLineStep_of_qualifies (tg : TileGen) (l : Str)
    (h : qualifies l = true) :
    parseLineStep tg l =
      { tg with
        PropertyNameSet :=
          (recordOfLine l).Properties.foldl insertName tg.PropertyNameSet,
        Definitions := tg.Definitions ++ [recordOfLine l] } := by
  simp only [qualifies, Bool.and_eq_true, decide_eq_true_eq, ne_eq,
    Bool.not_eq_true', decide_eq_false_iff_not] at h
  obtain ⟨h1, h2⟩ := h
  unfold parseLineStep
  simp [h1, h2, recordOfLine]

lemma foldl_parseLineStep_defs (lines : List Str) (tg : TileGen) :
    (lines.foldl parseLineStep tg).Definitions =
      tg.Definitions ++ (lines.filter qualifies).map recordOfLine := by
  induction lines generalizing tg with
  | nil => simp
  | cons l rest ih =>
    by_cases h : qualifies l = true
    · rw [List.foldl_cons, ih, parseLineStep_of_qualifies tg l h]
      simp [h]
    · rw [List.foldl_cons, ih,
        parseLineStep_of_not_qualifies tg l (Bool.not_eq_true _ ▸ h)]
      simp [h]

/-! ### Property set lemmas -/

lemma mem_insertName (acc : List Str) (q p : Str) :
    p ∈ insertName acc q ↔ p ∈ acc ∨ p = q := by
  unfold insertName
  by_cases h : q ∈ acc
  · simp only [h, if_true]
    constructor
    · exact Or.inl
    · rintro (hp | rfl) <;> [exact hp; exact h]
  · simp [h]

lemma nodup_insertName (acc : List Str) (q : Str) (h : acc.Nodup) :
    (insertName acc q).Nodup := by
  unfold insertName
  by_cases hq : q ∈ acc
  · simpa [hq]
  · simp [hq, List.nodup_append, h]

lemma mem_foldl_insertName (ps : List Str) (acc : List Str) (p : Str) :
    p ∈ ps.foldl insertName acc ↔ p ∈ acc ∨ p ∈ ps := by
  induction ps generalizing acc with
  | nil => simp
  | cons q rest ih =>
    rw [List.foldl_cons, ih, mem_insertName]
    constructor
    · rintro ((hp | rfl) | hp)
      · exact Or.inl hp
      · exact Or.inr (List.mem_cons_self _ _)
      · exact Or.inr (List.mem_cons_of_mem _ hp)
    · rintro (hp | hp)
      · exact Or.inl (Or.inl hp)
      · rcases List.mem_cons.mp hp with rfl | hp
        · exact Or.inl (Or.inr rfl)
        · exact Or.inr hp

lemma nodup_foldl_insertName (ps : List Str) (acc : List Str) (h : acc.Nodup) :
    (ps.foldl insertName acc).Nodup := by
  induction ps generalizing acc with
  | nil => simpa
  | cons q rest ih => exact ih _ (nodup_insertName acc q h)

/-- Invariant tying the property set to the record list. -/
def SetMatchesDefs (tg : TileGen) : Prop :=
  ∀ p, p ∈ tg.PropertyNameSet ↔ ∃ d ∈ tg.Definitions, p ∈ d.Properties

lemma parseLineStep_setMatches (tg : TileGen) (l : Str)
    (h : SetMatchesDefs tg) : SetMatchesDefs (parseLineStep tg l) := by
  by_cases hq : qualifies l = true
  · rw [parseLineStep_of_qualifies tg l hq]
    intro p
    rw [mem_foldl_insertName]
    simp only [List.mem_append, List.mem_singleton]
    constructor
    · rintro (hp | hp)
      · obtain ⟨d, hd, hpd⟩ := (h p).mp hp
        exact ⟨d, Or.inl hd, hpd⟩
      · exact ⟨recordOfLine l, Or.inr rfl, hp⟩
    · rintro ⟨d, hd | rfl, hpd⟩
      · exact Or.inl ((h p).mpr ⟨d, hd, hpd⟩)
      · exact Or.inr hpd
  · rw [parseLineStep_of_not_qualifies tg l (Bool.not_eq_true _ ▸ hq)]
    exact h

lemma parseLineStep_nodup (tg : TileGen) (l : Str)
    (h : tg.PropertyNameSet.Nodup) : (parseLineStep tg l).PropertyNameSet.Nodup := by
  by_cases hq : qualifies l = true
  · rw [parseLineStep_of_qualifies tg l hq]
    exact nodup_foldl_insertName _ _ h
  · rw [parseLineStep_of_not_qualifies tg l (Bool.not_eq_true _ ▸ hq)]
    exact h

lemma foldl_parseLineStep_setMatches (lines : List Str) (tg : TileGen)
    (h : SetMatchesDefs tg) : SetMatchesDefs (lines.foldl parseLineStep tg) := by
  induction lines generalizing tg with
  | nil => simpa
  | cons l rest ih => exact ih _ (parseLineStep_setMatches tg l h)

lemma foldl_parseLineStep_nodup (lines : List Str) (tg : TileGen)
    (h : tg.PropertyNameSet.Nodup) :
    (lines.foldl parseLineStep tg).PropertyNameSet.Nodup := by
  induction lines generalizing tg with
  | nil => simpa
  | cons l rest ih => exact ih _ (parseLineStep_nodup tg l h)

/-! ### Byte-wise string order and the template's sorted map iteration

Go's `text/template` visits the keys of a ranged-over map in sorted order
(`fmtsort`), comparing strings byte-wise.  `strLtb` is that comparison on
the ASCII model, and `sortStrings` produces the visit order. -/

/-- Byte-wise strict lexicographic comparison of strings, as used when Go
sorts map keys. -/
def strLtb : Str → Str → Bool
  | [], [] => false
  | [], _ :: _ => true
  | _ :: _, [] => false
  | a :: as, b :: bs => if a < b then true else if b < a then false else strLtb as bs

/-- Reflexive byte-wise comparison. -/
def strLeb (a b : Str) : Bool := ! strLtb b a

/-- Insert into a sorted list of strings, keeping it sorted. -/
def insertSorted (x : Str) : List Str → List Str
  | [] => [x]
  | y :: ys => if strLeb x y then x :: y :: ys else y :: insertSorted x ys

/-- Sort a list of strings byte-wise ascending: the order in which
`text/template` ranges over a `map[string]bool`. -/
def sortStrings (l : List Str) : List Str := l.foldr insertSorted []

/-- The property-flag declaration order of the generated source artifact:
the template ranges over the `PropertyNameSet` map, hence sorted keys. -/
def codePropertyDecls (tg : TileGen) : List Str := sortStrings tg.PropertyNameSet

lemma strLtb_trichotomy (a b : Str) :
    strLtb a b = true ∨ strLtb b a = true ∨ a = b := by
  induction a generalizing b with
  | nil => cases b <;> simp [strLtb]
  | cons x xs ih =>
    cases b with
    | nil => simp [strLtb]
    | cons y ys =>
      rcases lt_trichotomy x y with h | h | h
      · left; simp [strLtb, h]
      · subst h
        rcases ih ys with h | h | h
        · left; simp [strLtb, h]
        · right; left; simp [strLtb, h]
        · right; right; simp [h]
      · right; left; simp [strLtb, h]

lemma strLtb_irrefl (a : Str) : strLtb a a = false := by
  induction a with
  | nil => rfl
  | cons x xs ih => simp [strLtb, ih]

lemma strLtb_asymm (a b : Str) (h : strLtb a b = true) : strLtb b a = false := by
  induction a generalizing b with
  | nil => cases b <;> simp [strLtb]
  | cons x xs ih =>
    cases b with
    | nil => simp [strLtb] at h
    | cons y ys =>
      rcases lt_trichotomy x y with hxy | hxy | hxy
      · simp [strLtb, hxy, not_lt_of_lt hxy]
      · subst hxy
        simp only [strLtb, lt_irrefl, if_false] at h ⊢
        exact ih ys h
      · simp [strLtb, hxy, not_lt_of_lt hxy] at h

lemma strLtb_trans (a b c : Str) (hab : strLtb a b = true)
    (hbc : strLtb b c = true) : strLtb a c = true := by
  induction a generalizing b c with
  | nil =>
    cases c with
    | nil => cases b <;> simp_all [strLtb]
    | cons z zs => simp [strLtb]
  | cons x xs ih =>
    cases b with
    | nil => simp [strLtb] at hab
    | cons y ys =>
      cases c with
      | nil => simp [strLtb] at hbc
      | cons z zs =>
        rcases lt_trichotomy x y with hxy | hxy | hxy
        · rcases lt_trichotomy y z with hyz | hyz | hyz
          · simp [strLtb, lt_trans hxy hyz]
          · subst hyz; simp [strLtb, hxy]
          · simp [strLtb, hyz, not_lt_of_lt hyz] at hbc
        · subst hxy
          rcases lt_trichotomy x z with hxz | hxz | hxz
          · simp [strLtb, hxz]
          · subst hxz
            simp only [strLtb, lt_irrefl, if_false] at hab hbc ⊢
            exact ih ys zs hab hbc
          · simp only [strLtb, not_lt_of_lt hxz, if_false] at hbc ⊢
            simp [hxz] at hbc
        · simp [strLtb, hxy, not_lt_of_lt hxy] at hab

lemma strLeb_total (a b : Str) : strLeb a b = true ∨ strLeb b a = true := by
  unfold strLeb
  rcases strLtb_trichotomy a b with h | h | h
  · left; simp [strLtb_asymm a b h]
  · right; simp [strLtb_asymm b a h]
  · subst h; left; simp [strLtb_irrefl]

lemma strLtb_of_leb_ne (a b : Str) (h : strLeb a b = true) (hne : a ≠ b) :
    strLtb a b = true := by
  unfold strLeb at h
  rcases strLtb_trichotomy a b with h' | h' | h'
  · exact h'
  · simp [h'] at h
  · exact absurd h' hne

lemma mem_insertSorted (x p : Str) (l : List Str) :
    p ∈ insertSorted x l ↔ p = x ∨ p ∈ l := by
  induction l with
  | nil => simp [insertSorted]
  | cons y ys ih =>
    unfold insertSorted
    by_cases h : strLeb x y = true
    · rw [if_pos h]; simp
    · rw [if_neg h]
      simp only [List.mem_cons, ih]
      tauto

lemma perm_insertSorted (x : Str) (l : List Str) :
    (insertSorted x l).Perm (x :: l) := by
  induction l with
  | nil => simp [insertSorted]
  | cons y ys ih =>
    unfold insertSorted
    by_cases h : strLeb x y = true
    · simp [h]
    · simp only [h, if_false]
      exact (ih.cons y).trans (List.Perm.swap x y ys)

lemma perm_sortStrings (l : List Str) : (sortStrings l).Perm l := by
  induction l with
  | nil => rfl
  | cons x xs ih =>
    exact (perm_insertSorted x (sortStrings xs)).trans (ih.cons x)

lemma strLeb_trans (a b c : Str) (hab : strLeb a b = true)
    (hbc : strLeb b c = true) : strLeb a c = true := by
  unfold strLeb at hab hbc ⊢
  simp only [Bool.not_eq_true'] at hab hbc ⊢
  by_contra hca
  simp only [Bool.not_eq_false] at hca
  rcases strLtb_trichotomy a b with h | h | h
  · exact absurd (strLtb_trans c a b hca h) (by simp [hbc])
  · exact absurd h (by simp [hab])
  · subst h
    exact absurd hca (by simp [hbc])

lemma pairwise_insertSorted (x : Str) (l : List Str)
    (h : l.Pairwise (fun a b => strLeb a b = true)) :
    (insertSorted x l).Pairwise (fun a b => strLeb a b = true) := by
  induction l with
  | nil => simp [insertSorted]
  | cons y ys ih =>
    unfold insertSorted
    rcases List.pairwise_cons.mp h with ⟨hy, hys⟩
    by_cases hxy : strLeb x y = true
    · rw [if_pos hxy]
      refine List.pairwise_cons.mpr ⟨?_, h⟩
      intro z hz
      rcases List.mem_cons.mp hz with rfl | hz
      · exact hxy
      · exact strLeb_trans x y z hxy (hy z hz)
    · rw [if_neg hxy]
      refine List.pairwise_cons.mpr ⟨?_, ih hys⟩
      intro z hz
      rcases (mem_insertSorted x z ys).mp hz with hzx | hz
      · rw [hzx]
        rcases strLeb_total x y with h' | h'
        · exact absurd h' hxy
        · exact h'
      · exact hy z hz

lemma pairwise_sortStrings (l : List Str) :
    (sortStrings l).Pairwise (fun a b => strLeb a b = true) := by
  induction l with
  | nil => simp [sortStrings]
  | cons x xs ih => exact pairwise_insertSorted x (sortStrings xs) ih

/-! ### Template rendering

`text/template` substitutes the model's fields into the literal template
text; a `range` action concatenates its body once per element.  The
renderers below spell out the literal segments of `ReadmeTemplate` and
`CodeTemplate` between the actions. -/

/-- Literal text of `ReadmeTemplate` before `\x7b\x7b.Timestamp\x7d\x7d`. -/
def readmeHeader : Str :=
  str "\nTile Types Definitions\n----------------------------------------------------------------------\n \nTime Generated |\n---------------|\n"

/-- Literal text of `ReadmeTemplate` between the timestamp and the table
rows. -/
def readmeMiddle : Str :=
  str " |\n\nThis defintion table is generated from tile_types.txt.  Each symbol\ncorresponds to the Name, which becomes a constant in types.go.  Since\nthe following symbols have been defined, they can be used in grid.txt\nto create game worlds!\n \n| Symbol | Name | Default Properties  |\n|:------:|------|---------------------|\n"

/-- One row of the README table: the body of the outer `range` action. -/
def readmeRow (tile : TileDef) : Str :=
  str "| " ++ tile.Symbol ++ str " | " ++ tile.Name ++ str " | " ++
    (tile.Properties.map (fun p => str " " ++ p ++ str ",")).flatten ++ str " |\n"

/-- Render `ReadmeTemplate` against the model. -/
def renderReadme (tg : TileGen) : Str :=
  readmeHeader ++ tg.Timestamp ++ readmeMiddle ++
    (tg.Definitions.map readmeRow).flatten ++ str "\n\n"

/-- Literal text of `CodeTemplate` up to the first `range` action. -/
def codeSeg1 : Str :=
  str "\n// Code generated by types_generator.go - DO NOT EDIT.\n\npackage somepkg\n\nconst (\n\t_ Kind = iota\n\t"

/-- Literal text of `CodeTemplate` between the Kind block and the Property
block. -/
def codeSeg2 : Str :=
  str "\n)\n\nconst (\n\t_ Property = (1 << iota) >> 1\n\t"

/-- Literal text of `CodeTemplate` between the Property block and the
`DefaultProperties` substitution. -/
def codeSeg3 : Str :=
  str "\n)\n\nvar DefaultProperty = map[Kind]Property \x7b\n"

/-- Literal text of `CodeTemplate` between the `DefaultProperties`
substitution and the symbol-map rows. -/
def codeSeg4 : Str :=
  str "\n\x7d\n\nvar SymbolToKind = map[string]Kind \x7b\n\t"

/-- Literal text of `CodeTemplate` after the symbol-map rows. -/
def codeSeg5 : Str :=
  str "\n\x7d\n"

/-- The key/value pairs of the `SymbolToKind` map literal emitted by the
template: one `"<Symbol>": <Name>` entry per definition, in input order. -/
def symbolToKindPairs (defs : List TileDef) : List (Str × Str) :=
  defs.map (fun d => (d.Symbol, d.Name))

/-- Render `CodeTemplate` against the model.  The Kind and symbol-map
ranges iterate the `Definitions` slice in order; the Property range
iterates the `PropertyNameSet` map, which `text/template` visits in sorted
key order. -/
def renderCode (tg : TileGen) : Str :=
  codeSeg1 ++ (tg.Definitions.map (fun t => t.Name ++ str "\n\t")).flatten ++
  codeSeg2 ++ ((codePropertyDecls tg).map (fun n => n ++ str "\n\t")).flatten ++
  codeSeg3 ++ tg.DefaultProperties ++
  codeSeg4 ++
  ((symbolToKindPairs tg.Definitions).map
    (fun p => str "\"" ++ p.1 ++ str "\": " ++ p.2 ++ str ",\n\t")).flatten ++
  codeSeg5

/-! ### Go `const`-block semantics of the generated artifact

Each `const` block of `CodeTemplate` declares a line per `iota` value:
line 0 is a blank identifier, the following lines carry the rendered
names.  `Kind` lines take the value `iota`; `Property` lines take
`(1 << iota) >> 1`.  Go evaluates constant expressions in arbitrary
precision (overflow is a compile error, never wrap-around), so `Nat` is
the faithful value domain. -/

/-- Lines of the generated `Kind` const block: the blank identifier, then
one line per definition name in input order. -/
def kindConstLines (defs : List TileDef) : List (Option Str) :=
  none :: defs.map (fun d => some d.Name)

/-- Name/value assignment of the `Kind` const block (`_ Kind = iota`). -/
def kindConstValues (defs : List TileDef) : List (Option Str × Nat) :=
  (kindConstLines defs).enum.map (fun p => (p.2, p.1))

/-- Value of const-block line `i` under `_ Property = (1 << iota) >> 1`. -/
def flagValue (i : Nat) : Nat := (1 <<< i) >>> 1

/-- Lines of the generated `Property` const block: the blank identifier,
then one line per declared property name. -/
def propertyConstLines (names : List Str) : List (Option Str) :=
  none :: names.map some

/-- Name/value assignment of the `Property` const block. -/
def propertyConstValues (names : List Str) : List (Option Str × Nat) :=
  (propertyConstLines names).enum.map (fun p => (p.2, flagValue p.1))

/-! ### File output and the whole pipeline -/

/-- The failure modes a call of `makeTheFile` can meet: the template parse
inside `template.Must`, the `os.OpenFile` call, the `os.Truncate` call and
the `t.Execute` call. -/
structure FileOps where
  parseFails : Bool
  openFails : Bool
  truncateFails : Bool
  executeFails : Bool
deriving DecidableEq, Repr

/-- Whether a run of `makeTheFile` aborts the process.  `template.Must`
panics on a parse failure and a failed `os.OpenFile` hits `log.Fatal`; the
error results of `os.Truncate` and of `t.Execute` are discarded by the
source, so the run continues past them. -/
def makeTheFileAborts (ops : FileOps) : Bool :=
  if ops.parseFails then true
  else if ops.openFails then true
  else false

/-- `main` without the file system: set the timestamp, parse the input
text, assemble the bitmask strings, and render the README and the source
artifact. -/
def runPipeline (ts : Str) (input : Str) : Str × Str :=
  let tg := stringifyPropertyList
    (parseTileDefs input { initTileGen with Timestamp := ts })
  (renderReadme tg, renderCode tg)

/-! ### Timestamp independence of parsing and assembly -/

lemma parseLineStep_timestamp (tg : TileGen) (ts l : Str) :
    parseLineStep { tg with Timestamp := ts } l =
      { parseLineStep tg l with Timestamp := ts } := by
  unfold parseLineStep
  by_cases h0 : trimSpace l = []
  · simp [h0]
  · by_cases h1 : (splitOnSep ' ' (trimSpace l)).length < 2
    · simp [h0, h1]
    · simp [h0, h1]

lemma foldl_parseLineStep_timestamp (lines : List Str) (tg : TileGen) (ts : Str) :
    lines.foldl parseLineStep { tg with Timestamp := ts } =
      { lines.foldl parseLineStep tg with Timestamp := ts } := by
  induction lines generalizing tg with
  | nil => simp
  | cons l rest ih =>
    rw [List.foldl_cons, parseLineStep_timestamp, ih, List.foldl_cons]

lemma stringifyPropertyList_timestamp (tg : TileGen) (ts : Str) :
    stringifyPropertyList { tg with Timestamp := ts } =
      { stringifyPropertyList tg with Timestamp := ts } := rfl

/-! ### Bitmask assembler lemmas -/

lemma foldl_orSep_append (t : List Str) (s : Str) :
    t.foldl (fun s v => s ++ v ++ orSep) s =
      s ++ t.foldl (fun s v => s ++ v ++ orSep) [] := by
  induction t generalizing s with
  | nil => simp
  | cons a t ih =>
    rw [List.foldl_cons, List.foldl_cons, ih, ih (([] : Str) ++ a ++ orSep)]
    simp [List.append_assoc]

lemma propExpr_cons_cons (a b : Str) (rest : List Str) :
    propExpr (a :: b :: rest) = a ++ orSep ++ propExpr (b :: rest) := by
  cases rest with
  | nil => simp [propExpr, List.append_assoc]
  | cons c rest' =>
    simp only [propExpr]
    rw [List.dropLast_cons₂, List.foldl_cons, foldl_orSep_append]
    simp [List.getLastD_cons, List.append_assoc]

lemma propExpr_eq_intercalate (a b : Str) (rest : List Str) :
    propExpr (a :: b :: rest) = List.intercalate orSep (a :: b :: rest) := by
  induction rest generalizing a b with
  | nil => simp [propExpr, List.intercalate, List.intersperse, List.append_assoc]
  | cons c rest' ih =>
    rw [propExpr_cons_cons, ih b c]
    simp [List.intercalate, List.intersperse, List.append_assoc]

/-! ### Const-block value lemmas -/

lemma flagValue_succ (i : Nat) : flagValue (i + 1) = 2 ^ i := by
  unfold flagValue
  rw [Nat.shiftLeft_eq, Nat.shiftRight_eq_div_pow]
  simp [pow_succ]

lemma kindConstValues_snd (defs : List TileDef) :
    (kindConstValues defs).map Prod.snd = List.range (defs.length + 1) := by
  unfold kindConstValues
  rw [List.map_map]
  have h : (Prod.snd ∘ fun p : Nat × Option Str => (p.2, p.1)) = Prod.fst := rfl
  rw [h, List.enum_map_fst]
  simp [kindConstLines]

lemma kindConstValues_fst (defs : List TileDef) :
    (kindConstValues defs).map Prod.fst = kindConstLines defs := by
  unfold kindConstValues
  rw [List.map_map]
  have h : (Prod.fst ∘ fun p : Nat × Option Str => (p.2, p.1)) = Prod.snd := rfl
  rw [h, List.enum_map_snd]

lemma propertyConstValues_snd (names : List Str) :
    (propertyConstValues names).map Prod.snd =
      0 :: (List.range names.length).map (fun i => 2 ^ i) := by
  unfold propertyConstValues
  rw [List.map_map]
  have h1 : (Prod.snd ∘ fun p : Nat × Option Str => (p.2, flagValue p.1)) =
      flagValue ∘ Prod.fst := rfl
  rw [h1, ← List.map_map, List.enum_map_fst]
  have h2 : (propertyConstLines names).length = names.length + 1 := by
    simp [propertyConstLines]
  rw [h2, List.range_succ_eq_map]
  have h3 : flagValue ∘ Nat.succ = fun i => 2 ^ i :=
    funext fun i => flagValue_succ i
  simp only [List.map_cons, List.map_map, h3]
  rfl

/-! ### Claim theorems -/

/-- C1: the parser produces exactly one `TileRecord` per input line that,
after trimming, is non-empty and splits on single spaces into at least two
fields; other lines produce no record, and the record count equals the
number of qualifying lines, in input line order. -/
theorem parse_one_record_per_qualifying_line :
    ∀ s : Str,
      (parseTileDefs s initTileGen).Definitions =
        ((scanLines s).filter qualifies).map recordOfLine ∧
      (parseTileDefs s initTileGen).Definitions.length =
        ((scanLines s).filter qualifies).length := by
  intro s
  have h := foldl_parseLineStep_defs (scanLines s) initTileGen
  have h1 : (parseTileDefs s initTileGen).Definitions =
      ((scanLines s).filter qualifies).map recordOfLine := by
    simpa [parseTileDefs, initTileGen] using h
  exact ⟨h1, by rw [h1, List.length_map]⟩

/-- C2: a record's bitmask expression is the literal `0` for zero
properties, the bare name for one property, and for two or more
properties the names in input order joined by the ` | ` combinator with
none after the last name. -/
theorem bitmask_expression_cases :
    propExpr [] = str "0" ∧
    (∀ p : Str, propExpr [p] = p) ∧
    ∀ (a b : Str) (rest : List Str),
      propExpr (a :: b :: rest) = List.intercalate orSep (a :: b :: rest) :=
  ⟨rfl, fun _ => rfl, propExpr_eq_intercalate⟩

/-- Round-trip input of the spec's test scenario. -/
def demoInput : Str :=
  str "g Grass burns\nd Dirt\nb Bush burns\nt Tree burns nowalk\nw Water nowalk"

/-- C3: on the five-line demo input the pipeline yields property set
`\x7bBurns, Nowalk\x7d`, Kind names Grass, Dirt, Bush, Tree, Water in order,
the stated per-record bitmask expressions, and the stated symbol-to-kind
pairs. -/
theorem demo_pipeline_results :
    ((parseTileDefs demoInput initTileGen).PropertyNameSet =
      [str "Burns", str "Nowalk"]) ∧
    ((parseTileDefs demoInput initTileGen).Definitions.map TileDef.Name =
      [str "Grass", str "Dirt", str "Bush", str "Tree", str "Water"]) ∧
    ((parseTileDefs demoInput initTileGen).Definitions.map
        (fun d => (d.Name, propExpr d.Properties)) =
      [(str "Grass", str "Burns"), (str "Dirt", str "0"),
       (str "Bush", str "Burns"), (str "Tree", str "Burns | Nowalk"),
       (str "Water", str "Nowalk")]) ∧
    symbolToKindPairs (parseTileDefs demoInput initTileGen).Definitions =
      [(str "g", str "Grass"), (str "d", str "Dirt"), (str "b", str "Bush"),
       (str "t", str "Tree"), (str "w", str "Water")] := by decide

/-- Input on which first-seen order and sorted order of property names
disagree: Zebra is encountered on the first line, Apple on the second. -/
def c4Input : Str := str "a aname zebra\nb bname apple"

/-- C4 counterexample: Zebra is the property encountered first during
parsing (it is the sole property of the first record, Apple of the
second), yet the generated artifact declares Apple first, because the
template ranges over the property-set map in sorted key order, not
first-seen order. -/
theorem propertyDecls_not_first_seen_order :
    ((parseTileDefs c4Input initTileGen).Definitions.map TileDef.Properties =
      [[str "Zebra"], [str "Apple"]]) ∧
    codePropertyDecls (parseTileDefs c4Input initTileGen) =
      [str "Apple", str "Zebra"] := by decide

/-- C4 amended: the property-flag constants of the generated artifact are
the members of the parsed property set declared in strictly ascending
byte-wise lexicographic order (so for every pair of distinct property
names, the lexicographically smaller one is declared first and receives
the lower bit). -/
theorem propertyDecls_sorted_order :
    ∀ s : Str,
      (∀ p, p ∈ codePropertyDecls (parseTileDefs s initTileGen) ↔
        p ∈ (parseTileDefs s initTileGen).PropertyNameSet) ∧
      (codePropertyDecls (parseTileDefs s initTileGen)).Pairwise
        (fun a b => strLtb a b = true) := by
  intro s
  constructor
  · intro p
    exact (perm_sortStrings (parseTileDefs s initTileGen).PropertyNameSet).mem_iff
  · have hnd : (parseTileDefs s initTileGen).PropertyNameSet.Nodup :=
      foldl_parseLineStep_nodup (scanLines s) initTileGen (by simp [initTileGen])
    have hnd2 : (sortStrings (parseTileDefs s initTileGen).PropertyNameSet).Nodup :=
      ((perm_sortStrings _).nodup_iff).mpr hnd
    have hle := pairwise_sortStrings (parseTileDefs s initTileGen).PropertyNameSet
    exact (hle.and hnd2).imp (fun hab => strLtb_of_leb_ne _ _ hab.1 hab.2)

/-- C5: in the generated artifact the Kind const block assigns the blank
line value 0 and the names consecutive values 1..N in input order, and the
Property const block, after its zero-valued blank slot, assigns the flags
1, 2, 4, ... — the value of line `i` being `(1 << i) >> 1`, so the first
flag is 1 and every further flag doubles its predecessor. -/
theorem generated_const_block_values :
    ∀ (defs : List TileDef) (names : List Str),
      (kindConstValues defs).map Prod.snd = List.range (defs.length + 1) ∧
      (kindConstValues defs).map Prod.fst =
        none :: defs.map (fun d => some d.Name) ∧
      (propertyConstValues names).map Prod.snd =
        0 :: (List.range names.length).map (fun i => 2 ^ i) ∧
      flagValue 0 = 0 ∧ flagValue 1 = 1 ∧
      ∀ i : Nat, flagValue (i + 2) = 2 * flagValue (i + 1) := by
  intro defs names
  refine ⟨kindConstValues_snd defs, ?_, propertyConstValues_snd names, rfl, rfl, ?_⟩
  · rw [kindConstValues_fst]; rfl
  · intro i
    rw [flagValue_succ, flagValue_succ, pow_succ, Nat.mul_comm]

/-- C6: after parsing, the property set holds exactly the distinct
capitalized tokens found at field positions 2 and beyond of qualifying
lines — every such token is a member, every member arises that way, and no
member appears twice. -/
theorem propertyNameSet_distinct_props :
    ∀ s p : Str,
      (p ∈ (parseTileDefs s initTileGen).PropertyNameSet ↔
        ∃ line ∈ scanLines s, qualifies line = true ∧
          p ∈ ((splitOnSep ' ' (trimSpace line)).drop 2).map capitilizeFirstLetter) ∧
      (parseTileDefs s initTileGen).PropertyNameSet.Nodup := by
  intro s p
  constructor
  · have hinv : SetMatchesDefs (parseTileDefs s initTileGen) := by
      apply foldl_parseLineStep_setMatches
      intro q
      simp [initTileGen]
    rw [hinv p]
    have hdefs : (parseTileDefs s initTileGen).Definitions =
        ((scanLines s).filter qualifies).map recordOfLine := by
      simpa [parseTileDefs, initTileGen] using
        foldl_parseLineStep_defs (scanLines s) initTileGen
    rw [hdefs]
    constructor
    · rintro ⟨d, hd, hpd⟩
      rcases List.mem_map.mp hd with ⟨line, hline, rfl⟩
      rcases List.mem_filter.mp hline with ⟨hmem, hq⟩
      exact ⟨line, hmem, hq, hpd⟩
    · rintro ⟨line, hmem, hq, hp⟩
      exact ⟨recordOfLine line,
        List.mem_map.mpr ⟨line, List.mem_filter.mpr ⟨hmem, hq⟩, rfl⟩, hp⟩
  · exact foldl_parseLineStep_nodup (scanLines s) initTileGen (by simp [initTileGen])

/-- C7: the capitalization function maps the empty string to the empty
string and otherwise uppercases only the first character, leaving the
remainder of the string unchanged. -/
theorem capitilizeFirstLetter_first_char_only :
    capitilizeFirstLetter [] = [] ∧
    ∀ (c : Char) (rest : Str),
      capitilizeFirstLetter (c :: rest) = toUpperChar c :: rest := by
  refine ⟨rfl, fun c rest => ?_⟩
  simp [capitilizeFirstLetter]

/-- C8 counterexample: a run of `makeTheFile` in which both the
`os.Truncate` call and the `t.Execute` call fail does not abort — the
source discards both error results — contradicting the claim that every
truncation or template-execution failure is fatal. -/
theorem makeTheFile_ignores_execute_failure :
    makeTheFileAborts
      { parseFails := false, openFails := false,
        truncateFails := true, executeFails := true } = false := by decide

/-- C8 amended: a `makeTheFile` run aborts the process exactly when the
template fails to parse (`template.Must` panics) or the output file cannot
be opened (`log.Fatal`); failures of `os.Truncate` and of `t.Execute` are
silently ignored and the run continues. -/
theorem makeTheFile_aborts_iff :
    ∀ ops : FileOps,
      makeTheFileAborts ops = (ops.parseFails || ops.openFails) := by
  intro ops
  unfold makeTheFileAborts
  by_cases h : ops.parseFails = true <;> simp [h]

/-- C9: for a fixed input text, two pipeline runs produce a byte-identical
source artifact, and README outputs that agree byte-for-byte outside the
embedded timestamp field. -/
theorem pipeline_deterministic_up_to_timestamp :
    ∀ (input ts1 ts2 : Str),
      (runPipeline ts1 input).2 = (runPipeline ts2 input).2 ∧
      ∃ pre post : Str,
        (runPipeline ts1 input).1 = pre ++ ts1 ++ post ∧
        (runPipeline ts2 input).1 = pre ++ ts2 ++ post := by
  intro input ts1 ts2
  have key : ∀ ts : Str,
      stringifyPropertyList
          (parseTileDefs input { initTileGen with Timestamp := ts }) =
        { stringifyPropertyList (parseTileDefs input initTileGen) with
            Timestamp := ts } := by
    intro ts
    unfold parseTileDefs
    rw [foldl_parseLineStep_timestamp, stringifyPropertyList_timestamp]
  constructor
  · show renderCode _ = renderCode _
    rw [key ts1, key ts2]
    rfl
  · refine ⟨readmeHeader,
      readmeMiddle ++
        ((stringifyPropertyList
          (parseTileDefs input initTileGen)).Definitions.map readmeRow).flatten ++
        str "\n\n", ?_, ?_⟩
    · show renderReadme _ = _
      rw [key ts1]
      simp [renderReadme, List.append_assoc]
    · show renderReadme _ = _
      rw [key ts2]
      simp [renderReadme, List.append_assoc]

/-- Input whose first line has a double space after the symbol and whose
second line has a double space inside the property region. -/
def c10Input : Str := str "g  b\ns n  x"

/-- C10: splitting on single spaces keeps empty fields, so they count
toward the two-field minimum and toward property positions: `g  b` splits
into three fields and qualifies, its record has an empty Name, and the
empty token of `s n  x` lands in that record's Properties and in the
property set as the empty string. -/
theorem empty_fields_from_double_spaces :
    (splitOnSep ' ' (str "g  b")).length = 3 ∧
    qualifies (str "g  b") = true ∧
    ((parseTileDefs c10Input initTileGen).Definitions =
      [{ Symbol := str "g", Name := [], Properties := [str "B"] },
       { Symbol := str "s", Name := str "N", Properties := [[], str "X"] }]) ∧
    (parseTileDefs c10Input initTileGen).PropertyNameSet =
      [str "B", [], str "X"] := by decide

example : scanLines (str "a\nb\n") = [str "a", str "b"] := by decide
example : scanLines (str "") = [] := by decide
example : scanLines (str "a\r\n\nb") = [str "a", [], str "b"] := by decide
example : splitOnSep ' ' (str "g  b") = [str "g", [], str "b"] := by decide
example : capitilizeFirstLetter (str "grass") = str "Grass" := by decide
example : propExpr [str "Burns", str "Nowalk"] = str "Burns | Nowalk" := by decide
example :
    (parseTileDefs (str "g Grass burns\nd Dirt\n") initTileGen).Definitions =
      [{ Symbol := str "g", Name := str "Grass", Properties := [str "Burns"] },
       { Symbol := str "d", Name := str "Dirt", Properties := [] }] := by decide
